import Mathlib

/-!
Verification of the telemetry-to-glyph rendering pipeline of the h2-net-lcd
status monitor. Each definition is a shallow embedding of a function of the
Rust source (src/main.rs, src/mock_display.rs); floating point values of
the source are modelled by rational numbers, machine integers by natural
numbers reduced modulo their width where overflow matters, and fallible
computations by the Except monad.
-/

namespace H2NetLcd

/-! ## Rate calculation (src/main.rs, NetStats::mbps, lines 53-70) -/

/-- Embedding of the unsigned fixed-width counter subtraction the code
performs in NetStats::mbps line 57-58 (Rust release-mode wrapping
subtraction of two values below 2 to the w; the source uses w = 64, the
specification example uses w = 8 with MAX_VALUE = 255). -/
def counterDelta (w old new : Nat) : Nat := (new + 2 ^ w - old) % 2 ^ w

/-! ## Quantizer (src/main.rs, display_char, lines 166-186) -/

/-- Embedding of display_char: value is the f64 ratio (modelled as a
rational), row is the u8 gauge row. The quantized value is the Rust
expression (value * 24.).ceil() as u8, whose lower saturation at zero is
Int.toNat; the match on Ordering from the source is written as the
corresponding if-chain. The byte 32 is the space character the source
writes for zero pixels. -/
def display_char (value : ℚ) (row : Nat) : Nat :=
  let quantized : Nat := (Int.ceil (value * 24)).toNat
  let target := 2 - row
  let pixels : Nat :=
    if target < quantized / 8 then 8
    else if quantized / 8 < target then 0
    else quantized - 8 * target
  if pixels = 0 then 32 else pixels - 1

/-- C1 (amended): the byte delta of the rate calculation is new - old when
new is at least old, and on wraparound it is the modular difference
MAX_VALUE - old + new + 1, one more than the specification formula. -/
theorem counterDelta_wraparound (w old new : Nat)
    (hold : old < 2 ^ w) (hnew : new < 2 ^ w) :
    (old ≤ new → counterDelta w old new = new - old) ∧
    (new < old → counterDelta w old new = (2 ^ w - 1) - old + new + 1) := by
  constructor
  · intro h
    unfold counterDelta
    have h1 : new + 2 ^ w - old = (new - old) + 2 ^ w := by omega
    rw [h1, Nat.add_mod_right]
    exact Nat.mod_eq_of_lt (by omega)
  · intro h
    unfold counterDelta
    rw [Nat.mod_eq_of_lt (by omega)]
    omega

/-- Witness for counterDelta_wraparound at the specification inputs:
no wraparound gives 50, wraparound at width 8 gives 206. -/
theorem counterDelta_wraparound_witness :
    counterDelta 8 50 100 = 50 ∧ counterDelta 8 100 50 = 206 := by
  constructor
  · exact (counterDelta_wraparound 8 50 100 (by decide) (by decide)).1 (by decide)
  · have h := (counterDelta_wraparound 8 100 50 (by decide) (by decide)).2 (by decide)
    simpa using h

/-- C1 counterexample: at old = 100, new = 50 with counter max 255 the code
computes 206, not the 205 = 255 - 100 + 50 the claim states. -/
theorem counterDelta_claim_counterexample :
    counterDelta 8 100 50 = 206 ∧ counterDelta 8 100 50 ≠ 255 - 100 + 50 := by
  decide

/-- C2: display_char follows the 24-unit quantization algorithm of the
specification (8 pixel rows above the target row, 0 below, the remainder on
the target row, with 0 mapping to the space byte and p pixels to glyph
p - 1), and takes the specified values at 0, 1 and one half. -/
theorem display_char_quantization (value : ℚ) (row : Nat)
    (h0 : 0 ≤ value) (h1 : value ≤ 1) (hr : row < 3) :
    (∃ pixels : Nat,
      ((2 - row < (Int.ceil (value * 24)).toNat / 8 → pixels = 8) ∧
       ((Int.ceil (value * 24)).toNat / 8 < 2 - row → pixels = 0) ∧
       ((Int.ceil (value * 24)).toNat / 8 = 2 - row →
         pixels = (Int.ceil (value * 24)).toNat - 8 * (2 - row))) ∧
      display_char value row = if pixels = 0 then 32 else pixels - 1) ∧
    display_char 0 row = 32 ∧ display_char 1 row = 7 ∧
    display_char (1 / 2 : ℚ) 0 = 32 ∧ display_char (1 / 2 : ℚ) 1 = 3 ∧
    display_char (1 / 2 : ℚ) 2 = 7 := by
  refine ⟨?_, ?_, ?_, ?_, ?_, ?_⟩
  · refine ⟨if 2 - row < (Int.ceil (value * 24)).toNat / 8 then 8
      else if (Int.ceil (value * 24)).toNat / 8 < 2 - row then 0
      else (Int.ceil (value * 24)).toNat - 8 * (2 - row), ?_, rfl⟩
    refine ⟨fun h => ?_, fun h => ?_, fun h => ?_⟩
    · simp [h]
    · rw [if_neg (by omega), if_pos h]
    · rw [if_neg (by omega), if_neg (by omega)]
  · interval_cases row <;> norm_num [display_char] <;> decide
  · interval_cases row <;> norm_num [display_char] <;> decide
  · norm_num [display_char] <;> decide
  · norm_num [display_char] <;> decide
  · norm_num [display_char] <;> decide

/-- Witness for display_char_quantization at value one half, row 1. -/
theorem display_char_quantization_witness :
    (0 : ℚ) ≤ 1 / 2 ∧ (1 / 2 : ℚ) ≤ 1 ∧ 1 < 3 ∧ display_char (1 / 2 : ℚ) 1 = 3 :=
  ⟨by norm_num, by norm_num, by norm_num,
    (display_char_quantization (1 / 2) 1 (by norm_num) (by norm_num)
      (by norm_num)).2.2.2.2.1⟩

/-- C9: every byte produced by display_char is either the space character 32
or a custom glyph index at most 7; no other byte value is possible. -/
theorem display_char_byte_range (value : ℚ) (row : Nat)
    (h0 : 0 ≤ value) (h1 : value ≤ 1) (hr : row < 3) :
    display_char value row = 32 ∨ display_char value row ≤ 7 := by
  simp only [display_char]
  split_ifs <;> omega

/-- Witness for display_char_byte_range at value one half, row 0. -/
theorem display_char_byte_range_witness :
    (0 : ℚ) ≤ 1 / 2 ∧ (1 / 2 : ℚ) ≤ 1 ∧ 0 < 3 ∧
      (display_char (1 / 2 : ℚ) 0 = 32 ∨ display_char (1 / 2 : ℚ) 0 ≤ 7) :=
  ⟨by norm_num, by norm_num, by norm_num,
    display_char_byte_range (1 / 2) 0 (by norm_num) (by norm_num) (by norm_num)⟩

/-! ## Bandwidth scaling before quantization (src/main.rs, lines 270-271) -/

/-- Embedding of the scaling the main loop applies to one direction of one
interface before quantizing: (mbps as f64 / 1000.).clamp(0., 1.) where mbps
is the u16 returned by NetStats::mbps. Rust clamp returns the lower bound
when below it, the upper bound when above it, and the value otherwise. -/
def scaleMbps (mbps : Nat) : ℚ :=
  if ((mbps : ℚ) / 1000) < 0 then 0
  else if 1 < ((mbps : ℚ) / 1000) then 1
  else (mbps : ℚ) / 1000

/-- C3 counterexample: the ratio passed to the quantizer at 1 Mbps is
1 / 1000, not the 0 that the log-scaled formula of the claim produces. -/
theorem scaleMbps_log_counterexample :
    scaleMbps 1 = 1 / 1000 ∧ scaleMbps 1 ≠ 0 := by
  norm_num [scaleMbps]

/-- C3 (amended): the ratio passed to the quantizer for a throughput gauge
is the linear clamp of mbps / 1000 to the unit interval, mapping 0 Mbps to
0 and 1000 Mbps to 1. -/
theorem scaleMbps_linear (mbps : Nat) :
    scaleMbps mbps = max 0 (min 1 ((mbps : ℚ) / 1000)) ∧
    0 ≤ scaleMbps mbps ∧ scaleMbps mbps ≤ 1 ∧
    scaleMbps 0 = 0 ∧ scaleMbps 1000 = 1 := by
  have h0 : (0 : ℚ) ≤ (mbps : ℚ) / 1000 := by positivity
  have key : scaleMbps mbps = max 0 (min 1 ((mbps : ℚ) / 1000)) := by
    unfold scaleMbps
    rw [if_neg (by linarith)]
    split_ifs with h
    · rw [min_eq_left (le_of_lt h)]
      norm_num
    · rw [min_eq_right (by linarith), max_eq_right h0]
  refine ⟨key, ?_, ?_, by norm_num [scaleMbps], by norm_num [scaleMbps]⟩
  · rw [key]
    exact le_max_left _ _
  · rw [key]
    exact max_le (by norm_num) (min_le_left _ _)

/-! ## History window (src/main.rs, NetStats::mbps, lines 61-67) -/

/-- One entry of NetStats.buckets: the (Instant, f64, f64) triple pushed by
NetStats::mbps, with the monotonic instant modelled as a rational number of
seconds and the two throughputs as rationals. -/
structure Bucket where
  time : ℚ
  rx : ℚ
  tx : ℚ
deriving DecidableEq

/-- Embedding of the while-let loop of lines 61-66: pop entries from the
front while the front entry is at least 60 seconds older than now. -/
def pruneBuckets (now : ℚ) : List Bucket → List Bucket
  | [] => []
  | b :: rest => if now - b.time < 60 then b :: rest else pruneBuckets now rest

/-- Embedding of lines 61-67: prune, then push the new entry at the back. -/
def pushBucket (buckets : List Bucket) (now rx tx : ℚ) : List Bucket :=
  pruneBuckets now buckets ++ [⟨now, rx, tx⟩]

lemma pruneBuckets_sublist (now : ℚ) (l : List Bucket) :
    (pruneBuckets now l).Sublist l := by
  induction l with
  | nil => exact List.Sublist.refl _
  | cons b rest ih =>
    simp only [pruneBuckets]
    split
    · exact List.Sublist.refl _
    · exact ih.trans (List.sublist_cons_self b rest)

lemma pruneBuckets_age (now : ℚ) (l : List Bucket)
    (hsorted : l.Pairwise (fun a b => a.time ≤ b.time)) :
    ∀ b ∈ pruneBuckets now l, now - b.time < 60 := by
  induction l with
  | nil => simp [pruneBuckets]
  | cons x rest ih =>
    rw [List.pairwise_cons] at hsorted
    simp only [pruneBuckets]
    split
    · rename_i hx
      intro b hb
      rcases List.mem_cons.mp hb with rfl | hb
      · exact hx
      · have := hsorted.1 b hb
        linarith
    · exact ih hsorted.2

/-- C4: pushing a sample whose timestamp is not below every retained
timestamp prunes the window so that every retained entry is strictly
younger than 60 seconds relative to the newest timestamp, keeps the queue
sorted by timestamp, and re-establishes the timestamp bound for the next
push. -/
theorem pushBucket_window_invariant (buckets : List Bucket) (now rx tx : ℚ)
    (hsorted : buckets.Pairwise (fun a b => a.time ≤ b.time))
    (hle : ∀ b ∈ buckets, b.time ≤ now) :
    (∀ b ∈ pushBucket buckets now rx tx, now - b.time < 60) ∧
    (pushBucket buckets now rx tx).Pairwise (fun a b => a.time ≤ b.time) ∧
    (∀ b ∈ pushBucket buckets now rx tx, b.time ≤ now) := by
  refine ⟨?_, ?_, ?_⟩
  · intro b hb
    rcases List.mem_append.mp hb with h | h
    · exact pruneBuckets_age now buckets hsorted b h
    · simp only [List.mem_singleton] at h
      subst h
      norm_num
  · rw [pushBucket, List.pairwise_append]
    refine ⟨hsorted.sublist (pruneBuckets_sublist now buckets),
      List.pairwise_singleton _ _, ?_⟩
    intro a ha b hb
    simp only [List.mem_singleton] at hb
    subst hb
    exact hle a ((pruneBuckets_sublist now buckets).subset ha)
  · intro b hb
    rcases List.mem_append.mp hb with h | h
    · exact hle b ((pruneBuckets_sublist now buckets).subset h)
    · simp only [List.mem_singleton] at h
      subst h
      exact le_refl _

/-- Witness for pushBucket_window_invariant at the specification example:
samples at 0, 10 and 30 seconds, then a push at 65 seconds. -/
theorem pushBucket_window_invariant_witness :
    (∀ b ∈ pushBucket [⟨0, 0, 0⟩, ⟨10, 0, 0⟩, ⟨30, 0, 0⟩] 65 0 0,
        (65 : ℚ) - b.time < 60) ∧
    (pushBucket [⟨0, 0, 0⟩, ⟨10, 0, 0⟩, ⟨30, 0, 0⟩] 65 0 0).Pairwise
        (fun a b => a.time ≤ b.time) ∧
    (∀ b ∈ pushBucket [⟨0, 0, 0⟩, ⟨10, 0, 0⟩, ⟨30, 0, 0⟩] 65 0 0,
        b.time ≤ 65) :=
  pushBucket_window_invariant [⟨0, 0, 0⟩, ⟨10, 0, 0⟩, ⟨30, 0, 0⟩] 65 0 0
    (by norm_num [List.pairwise_cons])
    (by intro b hb; fin_cases hb <;> norm_num)

/-! ## Peak computation (src/main.rs, lines 287-299) -/

/-- Embedding of the Rust cast rx_mbps.ceil() as u16: ceiling, lower
saturation at 0 (Int.toNat) and upper saturation at 65535 as Rust float to
integer casts saturate. -/
def ceilU16 (x : ℚ) : Nat := min (Int.ceil x).toNat 65535

/-- Embedding of ifstats.iter().flat_map over the per-interface bucket
queues: the windows argument is the list of bucket queues, one per
tracked interface. -/
def allBuckets : List (List Bucket) → List Bucket
  | [] => []
  | w :: rest => w ++ allBuckets rest

/-- Maximum of a list of naturals as Rust Iterator::max: None on an empty
iterator. -/
def listMax : List Nat → Option Nat
  | [] => none
  | x :: rest =>
    match listMax rest with
    | none => some x
    | some m => some (max x m)

/-- Maximum of a list of rationals, used on the specification side to state
the ceiling of the maximum. -/
def listMaxQ : List ℚ → Option ℚ
  | [] => none
  | x :: rest =>
    match listMaxQ rest with
    | none => some x
    | some m => some (max x m)

/-- Embedding of lines 287-292: the peak rx value over every bucket of
every tracked interface. -/
def max_rx_mbps (windows : List (List Bucket)) : Option Nat :=
  listMax ((allBuckets windows).map (fun b => ceilU16 b.rx))

/-- Embedding of lines 293-298: the peak tx value over every bucket of
every tracked interface. -/
def max_tx_mbps (windows : List (List Bucket)) : Option Nat :=
  listMax ((allBuckets windows).map (fun b => ceilU16 b.tx))

lemma ceilU16_mono : Monotone ceilU16 := by
  intro x y h
  unfold ceilU16
  exact min_le_min (Int.toNat_le_toNat (Int.ceil_mono h)) (le_refl _)

lemma listMax_map_mono (f : ℚ → Nat) (hf : Monotone f) (l : List ℚ) :
    listMax (l.map f) = (listMaxQ l).map f := by
  induction l with
  | nil => rfl
  | cons x rest ih =>
    simp only [List.map_cons, listMax, listMaxQ, ih]
    cases listMaxQ rest with
    | none => rfl
    | some m => simp [hf.map_max]

lemma listMax_isSome (l : List Nat) (h : l ≠ []) : (listMax l).isSome := by
  cases l with
  | nil => exact absurd rfl h
  | cons x rest =>
    simp only [listMax]
    cases listMax rest <;> rfl

/-- C5: the peak computation yields the ceiling of the maximum tx
throughput and the ceiling of the maximum rx throughput as two independent
maxima over all buckets of all interfaces, it is defined whenever at least
one bucket exists, and on the specification example with tx values 2, 5, 3
and rx values 10, 1, 4 it yields 5 and 10. -/
theorem peak_independent_maxima (windows : List (List Bucket))
    (hne : allBuckets windows ≠ []) :
    max_tx_mbps windows =
      (listMaxQ ((allBuckets windows).map Bucket.tx)).map ceilU16 ∧
    max_rx_mbps windows =
      (listMaxQ ((allBuckets windows).map Bucket.rx)).map ceilU16 ∧
    (max_tx_mbps windows).isSome ∧ (max_rx_mbps windows).isSome ∧
    max_tx_mbps [[⟨0, 10, 2⟩, ⟨1, 1, 5⟩, ⟨2, 4, 3⟩]] = some 5 ∧
    max_rx_mbps [[⟨0, 10, 2⟩, ⟨1, 1, 5⟩, ⟨2, 4, 3⟩]] = some 10 := by
  have htx : max_tx_mbps windows =
      (listMaxQ ((allBuckets windows).map Bucket.tx)).map ceilU16 := by
    unfold max_tx_mbps
    rw [← listMax_map_mono ceilU16 ceilU16_mono, List.map_map]
    rfl
  have hrx : max_rx_mbps windows =
      (listMaxQ ((allBuckets windows).map Bucket.rx)).map ceilU16 := by
    unfold max_rx_mbps
    rw [← listMax_map_mono ceilU16 ceilU16_mono, List.map_map]
    rfl
  refine ⟨htx, hrx, ?_, ?_, ?_, ?_⟩
  · exact listMax_isSome _ (by simpa using hne)
  · exact listMax_isSome _ (by simpa using hne)
  · show listMax [ceilU16 2, ceilU16 5, ceilU16 3] = some 5
    norm_num [listMax, ceilU16] <;> decide
  · show listMax [ceilU16 10, ceilU16 1, ceilU16 4] = some 10
    norm_num [listMax, ceilU16] <;> decide

/-- Witness for peak_independent_maxima on the specification example
window. -/
theorem peak_independent_maxima_witness :
    allBuckets [[⟨0, 10, 2⟩, ⟨1, 1, 5⟩, ⟨2, 4, 3⟩]] ≠ [] ∧
    max_tx_mbps [[⟨0, 10, 2⟩, ⟨1, 1, 5⟩, ⟨2, 4, 3⟩]] = some 5 ∧
    max_rx_mbps [[⟨0, 10, 2⟩, ⟨1, 1, 5⟩, ⟨2, 4, 3⟩]] = some 10 :=
  ⟨by simp [allBuckets],
    (peak_independent_maxima [[⟨0, 10, 2⟩, ⟨1, 1, 5⟩, ⟨2, 4, 3⟩]]
      (by simp [allBuckets])).2.2.2.2.1,
    (peak_independent_maxima [[⟨0, 10, 2⟩, ⟨1, 1, 5⟩, ⟨2, 4, 3⟩]]
      (by simp [allBuckets])).2.2.2.2.2⟩

/-! ## Full rate computation step (src/main.rs, NetStats::mbps, lines 53-70) -/

/-- State of one NetStats value between polls: the last (Instant, u64, u64)
sample and the bucket queue. The interface name is omitted as it only
selects the OS data source. -/
structure NetStats where
  lastTime : ℚ
  lastRx : Nat
  lastTx : Nat
  buckets : List Bucket
deriving DecidableEq

/-- Embedding of NetStats::mbps given the outcome of Self::sample: on a
sampling error the error propagates through the question mark operator;
otherwise the elapsed seconds are computed and the division is performed
unconditionally (the source divides f64 values, where a zero divisor
yields a non-finite value rather than an error; the rational model returns
zero there, and no branch of either model produces an error). -/
def mbpsStep (st : NetStats) (sample : Except String (ℚ × Nat × Nat)) :
    Except String (NetStats × Nat × Nat) :=
  match sample with
  | .error e => .error e
  | .ok (now, newRx, newTx) =>
    let dur := now - st.lastTime
    let rx_mbps := (counterDelta 64 st.lastRx newRx : ℚ) / dur * 8 / 1000000
    let tx_mbps := (counterDelta 64 st.lastTx newTx : ℚ) / dur * 8 / 1000000
    .ok (⟨now, newRx, newTx, pushBucket st.buckets now rx_mbps tx_mbps⟩,
      ceilU16 rx_mbps, ceilU16 tx_mbps)

/-- C6 counterexample: with an elapsed interval of exactly zero seconds the
computation does not fail; it returns a successful result. -/
theorem mbps_zero_interval_counterexample :
    mbpsStep ⟨0, 0, 0, []⟩ (Except.ok (0, 100, 100)) =
      Except.ok (⟨0, 100, 100, [⟨0, 0, 0⟩]⟩, 0, 0) := by
  show Except.ok _ = _
  norm_num [counterDelta, pushBucket, pruneBuckets, ceilU16]

/-- C6 (amended): for a zero elapsed interval the throughput computation
performs the division anyway and succeeds; no InvalidInterval error
condition exists in the code, whose only error path is a failed sample. -/
theorem mbpsStep_zero_interval_ok (st : NetStats) (newRx newTx : Nat) :
    ∃ out, mbpsStep st (Except.ok (st.lastTime, newRx, newTx)) =
      Except.ok out :=
  ⟨_, rfl⟩

/-! ## Poll loop sampling (src/main.rs, main, lines 244-258) -/

/-- Embedding of the for-loop over interfaces at lines 248-251: each
interface is sampled in order and the first error propagates immediately
through the question mark operator. -/
def collectNet (results : List (Except String (Nat × Nat))) :
    Except String (List (Nat × Nat)) :=
  match results with
  | [] => .ok []
  | r :: rest =>
    match r with
    | .error e => .error e
    | .ok v =>
      match collectNet rest with
      | .error e => .error e
      | .ok vs => .ok (v :: vs)

/-- Embedding of the sampling phase of one loop iteration, lines 244-258:
CPU load, then every interface, then memory, then temperature, each behind
the question mark operator so the first error aborts the iteration and the
loop. -/
def sampleAll (cpu : Except String (List ℚ))
    (net : List (Except String (Nat × Nat)))
    (mem : Except String (Nat × Nat)) (temp : Except String ℚ) :
    Except String (List ℚ × List (Nat × Nat) × (Nat × Nat) × ℚ) :=
  match cpu with
  | .error e => .error e
  | .ok c =>
    match collectNet net with
    | .error e => .error e
    | .ok ns =>
      match mem with
      | .error e => .error e
      | .ok m =>
        match temp with
        | .error e => .error e
        | .ok t => .ok (c, ns, m, t)

lemma collectNet_ok_iff (net : List (Except String (Nat × Nat))) :
    (∃ vs, collectNet net = .ok vs) ↔ ∀ r ∈ net, ∃ v, r = .ok v := by
  induction net with
  | nil => simp [collectNet]
  | cons r rest ih =>
    cases r with
    | error e => simp [collectNet]
    | ok v =>
      simp only [collectNet, List.mem_cons]
      constructor
      · rintro ⟨vs, hvs⟩ x hx
        rcases hx with rfl | hx
        · exact ⟨v, rfl⟩
        · rcases h : collectNet rest with e | ws
          · rw [h] at hvs
            exact absurd hvs (by simp)
          · exact (ih.mp ⟨ws, h⟩) x hx
      · intro hall
        rcases ih.mpr (fun x hx => hall x (Or.inr hx)) with ⟨ws, hws⟩
        exact ⟨v :: ws, by rw [hws]⟩

lemma collectNet_error (net : List (Except String (Nat × Nat))) (e : String)
    (h : collectNet net = .error e) : ∃ r ∈ net, r = .error e := by
  induction net with
  | nil => exact absurd h (by simp [collectNet])
  | cons r rest ih =>
    cases r with
    | error e2 =>
      simp only [collectNet] at h
      cases h
      exact ⟨.error e, List.mem_cons_self _ _, rfl⟩
    | ok v =>
      simp only [collectNet] at h
      rcases h2 : collectNet rest with e3 | ws
      · rw [h2] at h
        cases h
        rcases ih h2 with ⟨x, hx, hxe⟩
        exact ⟨x, List.mem_cons_of_mem _ hx, hxe⟩
      · rw [h2] at h
        exact absurd h (by simp)

/-- C7: one iteration of the poll loop succeeds exactly when every
telemetry read succeeds, and when it fails the surfaced error is the error
of one of the reads; in particular no missing interface is replaced by a
substitute value. -/
theorem sampleAll_fatal (cpu : Except String (List ℚ))
    (net : List (Except String (Nat × Nat)))
    (mem : Except String (Nat × Nat)) (temp : Except String ℚ) :
    ((∃ v, sampleAll cpu net mem temp = .ok v) ↔
      ((∃ c, cpu = .ok c) ∧ (∀ r ∈ net, ∃ v, r = .ok v) ∧
       (∃ m, mem = .ok m) ∧ (∃ t, temp = .ok t))) ∧
    (∀ e, sampleAll cpu net mem temp = .error e →
      cpu = .error e ∨ (∃ r ∈ net, r = .error e) ∨
      mem = .error e ∨ temp = .error e) := by
  constructor
  · cases cpu with
    | error e => simp [sampleAll]
    | ok c =>
      rcases h : collectNet net with e | ns
      · simp only [sampleAll, h]
        constructor
        · rintro ⟨v, hv⟩
          exact absurd hv (by simp)
        · rintro ⟨-, hall, -⟩
          rcases (collectNet_ok_iff net).mpr hall with ⟨vs, hvs⟩
          rw [h] at hvs
          exact absurd hvs (by simp)
      · cases mem with
        | error e => simp [sampleAll, h]
        | ok m =>
          cases temp with
          | error e => simp [sampleAll, h]
          | ok t =>
            simp only [sampleAll, h]
            refine ⟨fun _ => ⟨⟨c, rfl⟩, ?_, ⟨m, rfl⟩, ⟨t, rfl⟩⟩,
              fun _ => ⟨_, rfl⟩⟩
            exact (collectNet_ok_iff net).mp ⟨ns, h⟩
  · intro e he
    cases cpu with
    | error e2 =>
      simp only [sampleAll] at he
      cases he
      exact Or.inl rfl
    | ok c =>
      rcases h : collectNet net with e3 | ns <;> rw [sampleAll, h] at he
      · cases he
        exact Or.inr (Or.inl (collectNet_error net _ h))
      · cases mem with
        | error e4 =>
          cases he
          exact Or.inr (Or.inr (Or.inl rfl))
        | ok m =>
          cases temp with
          | error e5 =>
            cases he
            exact Or.inr (Or.inr (Or.inr rfl))
          | ok t => exact absurd he (by simp)

/-- Witness for sampleAll_fatal: a failing CPU read surfaces its error. -/
theorem sampleAll_fatal_witness :
    (Except.error ("boom") : Except String (List ℚ)) = .error ("boom") ∨
    (∃ r ∈ ([] : List (Except String (Nat × Nat))), r = .error ("boom")) ∨
    (Except.ok ((0 : Nat), (0 : Nat)) : Except String (Nat × Nat)) =
      .error ("boom") ∨
    (Except.ok (0 : ℚ) : Except String ℚ) = .error ("boom") :=
  (sampleAll_fatal (.error ("boom")) [] (.ok (0, 0)) (.ok 0)).2 ("boom") rfl

/-! ## Fourth text row (src/main.rs, main, lines 281-301) -/

/-- Rounding of Rust f32::round, half away from zero, on the rational
model of the temperature. -/
def rustRound (x : ℚ) : ℤ :=
  if 0 ≤ x then Int.floor (x + 1 / 2) else Int.ceil (x - 1 / 2)

/-- Right alignment of a formatted value in a field of width w, as the
Rust formatter with a greater-than alignment: pad with spaces on the left
up to width w, never truncate. -/
def padLeft (w : Nat) (s : String) : String :=
  String.mk (List.replicate (w - s.length) (Char.ofNat 32) ++ s.data)

/-- Byte sequence of a printed string, one byte per ASCII character. -/
def strBytes (s : String) : List Nat := s.data.map Char.toNat

/-- Embedding of the fourth-row display calls of lines 281-301 in order:
print of the cpu label, the write! of the rounded temperature right-aligned
to width 2, the raw degree byte 0xdf, print of the unit and separating
space, the write! of the peak pair in two width-3 fields around a slash,
and the print of the trailing mem label. -/
def row4Bytes (temperature : ℚ) (max_tx max_rx : Nat) : List Nat :=
  strBytes ("cpu ")
    ++ strBytes (padLeft 2 (Int.repr (rustRound temperature)))
    ++ [0xdf]
    ++ strBytes ("C ")
    ++ strBytes (padLeft 3 (Nat.repr max_tx) ++ "/" ++ padLeft 3 (Nat.repr max_rx))
    ++ strBytes (" mem")

/-- The fourth row as the specification describes it: a literal label, the
rounded temperature right-aligned in a fixed-width field, a degree glyph
followed by the unit letter, the peak tx and rx values each right-aligned
in a 3-character field separated by a slash, and a trailing label. -/
def specRow4 (temperature : ℚ) (peakTx peakRx : Nat) : List Nat :=
  strBytes ("cpu ")
    ++ strBytes (padLeft 2 (Int.repr (rustRound temperature)))
    ++ (0xdf :: strBytes ("C "))
    ++ strBytes (padLeft 3 (Nat.repr peakTx))
    ++ strBytes ("/")
    ++ strBytes (padLeft 3 (Nat.repr peakRx))
    ++ strBytes (" mem")

set_option maxRecDepth 10000 in
lemma repr_length_le_three (n : Nat) (h : n < 1000) : (Nat.repr n).length ≤ 3 :=
  (by decide : ∀ m : Nat, m < 1000 → (Nat.repr m).length ≤ 3) n h

/-- C8: the fourth text row is rendered as the specification describes,
the two peak fields occupy exactly 3 characters each for peaks up to 999,
and at temperature 47 with peaks 5 and 10 the row reads cpu 47, the degree
byte, then C, 5 and 10 in their fields, and mem. -/
theorem row4_layout (temperature : ℚ) (tx rx : Nat)
    (htx : tx ≤ 999) (hrx : rx ≤ 999) :
    row4Bytes temperature tx rx = specRow4 temperature tx rx ∧
    (strBytes (padLeft 3 (Nat.repr tx))).length = 3 ∧
    (strBytes (padLeft 3 (Nat.repr rx))).length = 3 ∧
    row4Bytes 47 5 10 =
      strBytes ("cpu 47") ++ [0xdf] ++ strBytes ("C   5/ 10 mem") := by
  refine ⟨?_, ?_, ?_, ?_⟩
  · simp [row4Bytes, specRow4, strBytes, String.data_append, List.append_assoc]
  · have h := repr_length_le_three tx (by omega)
    simp only [strBytes, padLeft, List.length_map]
    show (List.replicate (3 - (Nat.repr tx).length) (Char.ofNat 32)
      ++ (Nat.repr tx).data).length = 3
    rw [List.length_append, List.length_replicate]
    have : (Nat.repr tx).length = (Nat.repr tx).data.length := rfl
    omega
  · have h := repr_length_le_three rx (by omega)
    simp only [strBytes, padLeft, List.length_map]
    show (List.replicate (3 - (Nat.repr rx).length) (Char.ofNat 32)
      ++ (Nat.repr rx).data).length = 3
    rw [List.length_append, List.length_replicate]
    have : (Nat.repr rx).length = (Nat.repr rx).data.length := rfl
    omega
  · have h47 : rustRound 47 = 47 := by norm_num [rustRound]
    simp only [row4Bytes, h47]
    decide

/-- Witness for row4_layout at temperature 47 and peaks 5 and 10. -/
theorem row4_layout_witness :
    (5 : Nat) ≤ 999 ∧ (10 : Nat) ≤ 999 ∧
    row4Bytes 47 5 10 = specRow4 47 5 10 :=
  ⟨by norm_num, by norm_num, (row4_layout 47 5 10 (by norm_num) (by norm_num)).1⟩

/-! ## Mock display (src/mock_display.rs and src/main.rs, lines 104-139) -/

/-- Character decoding of MockDisplay::write: byte 0 becomes a space,
bytes 1 through 7 become the block glyphs at 0x2580 plus the byte, byte
0xdf becomes the degree sign, and every other byte is taken as its own
code point. -/
def byteToChar (byte : Nat) : Char :=
  if byte = 0 then Char.ofNat 32
  else if 1 ≤ byte ∧ byte ≤ 7 then Char.ofNat (0x2580 + byte)
  else if byte = 0xdf then Char.ofNat 0xb0
  else Char.ofNat byte

/-- State of the mock display: the 4 by 20 character grid and the cursor
pair pos, with pos.0 the row and pos.1 the column as in the source. -/
structure MockDisplay where
  lines : List (List Char)
  row : Nat
  col : Nat
deriving DecidableEq

/-- Embedding of MockDisplay::new. -/
def MockDisplay.new : MockDisplay :=
  ⟨List.replicate 4 (List.replicate 20 (Char.ofNat 32)), 0, 0⟩

/-- Embedding of MockDisplay::position: both coordinates are clamped. -/
def MockDisplay.position (d : MockDisplay) (col row : Nat) : MockDisplay :=
  { d with row := min row 3, col := min col 19 }

/-- Embedding of MockDisplay::write: store the decoded character at the
cursor, advance the column, wrap the column at 20 into the next row and
wrap the row at 4 back to the top. -/
def MockDisplay.write (d : MockDisplay) (byte : Nat) : MockDisplay :=
  let lines := d.lines.set d.row
    ((d.lines.getD d.row []).set d.col (byteToChar byte))
  let col1 := d.col + 1
  let row1 := if col1 = 20 then d.row + 1 else d.row
  let col2 := if col1 = 20 then 0 else col1
  let row2 := if row1 = 4 then 0 else row1
  ⟨lines, row2, col2⟩

/-- Embedding of MockDisplay::print: write every byte of the string in
order; the argument is the byte sequence of the printed string. -/
def MockDisplay.print (d : MockDisplay) (bytes : List Nat) : MockDisplay :=
  bytes.foldl MockDisplay.write d

/-- The cursor and grid invariant of the mock display: the cursor is inside
the 4 by 20 grid and the grid has its full shape, so the grid indexing in
write is in bounds. -/
def MockDisplay.inBounds (d : MockDisplay) : Prop :=
  d.row < 4 ∧ d.col < 20 ∧ d.lines.length = 4 ∧ ∀ l ∈ d.lines, l.length = 20

instance (d : MockDisplay) : Decidable d.inBounds := by
  unfold MockDisplay.inBounds
  exact inferInstance

lemma write_inBounds (d : MockDisplay) (b : Nat) (h : d.inBounds) :
    (d.write b).inBounds := by
  obtain ⟨hrow, hcol, hlen, hall⟩ := h
  have hline : (d.lines.getD d.row []).length = 20 := by
    rw [List.getD_eq_getElem d.lines [] (by omega)]
    exact hall _ (List.getElem_mem (by omega))
  refine ⟨?_, ?_, ?_, ?_⟩
  · show (if (if d.col + 1 = 20 then d.row + 1 else d.row) = 4 then 0
      else if d.col + 1 = 20 then d.row + 1 else d.row) < 4
    split_ifs <;> omega
  · show (if d.col + 1 = 20 then 0 else d.col + 1) < 20
    split_ifs <;> omega
  · show (d.lines.set d.row _).length = 4
    rw [List.length_set]
    exact hlen
  · intro l hl
    rcases List.mem_or_eq_of_mem_set hl with h2 | h2
    · exact hall l h2
    · rw [h2, List.length_set]
      exact hline

lemma print_inBounds (d : MockDisplay) (bytes : List Nat) (h : d.inBounds) :
    (d.print bytes).inBounds := by
  induction bytes generalizing d with
  | nil => exact h
  | cons b rest ih => exact ih (d.write b) (write_inBounds d b h)

/-- C10: the mock display invariant (cursor row below 4 and column below
20, with the grid at its full 4 by 20 shape) holds after new and is
preserved by position, write and print, so the grid indexing in write is
always in bounds. -/
theorem mockDisplay_cursor_invariant :
    MockDisplay.new.inBounds ∧
    (∀ (d : MockDisplay) (c r : Nat), d.inBounds → (d.position c r).inBounds) ∧
    (∀ (d : MockDisplay) (b : Nat), d.inBounds → (d.write b).inBounds) ∧
    (∀ (d : MockDisplay) (bytes : List Nat),
      d.inBounds → (d.print bytes).inBounds) := by
  refine ⟨by decide, ?_, write_inBounds, print_inBounds⟩
  intro d c r h
  obtain ⟨-, -, hlen, hall⟩ := h
  refine ⟨?_, ?_, hlen, hall⟩
  · show min r 3 < 4
    omega
  · show min c 19 < 20
    omega

/-- Witness for mockDisplay_cursor_invariant: writing one byte on the
fresh display preserves the invariant. -/
theorem mockDisplay_cursor_invariant_witness :
    MockDisplay.new.inBounds ∧ (MockDisplay.new.write 65).inBounds :=
  ⟨by decide, mockDisplay_cursor_invariant.2.2.1 MockDisplay.new 65 (by decide)⟩

end H2NetLcd
